import Mathlib

/-!
Verification development for `src/analysis/ph_analysis.py`: temporal
cross-validation, grid search, best-model selection, forward simulation and
feature-importance labelling for the prison public-health forecasting
pipeline.  Numeric data is modelled with rationals, dataframes with lists of
rows, Python dictionaries with association lists, and the external
collaborators (normaliser, polynomial expander, regression solvers) with
explicit function parameters following the capability contracts of the spec.
-/

/-- Week-stamped observation row: `week` models `as_of_date.week` (and, after
the Forward Simulator advances it, the integer date label), while `cols` gives
the numeric value of every named column. -/
structure Row where
  week : Nat
  cols : String → ℚ

/-- Dataframe: a column list together with the rows. -/
structure Df where
  columns : List String
  rows : List Row

/-- Column assignment `r[c] = v` on a single row. -/
def setCol (r : Row) (c : String) (v : ℚ) : Row :=
  { r with cols := fun c2 => if c2 = c then v else r.cols c2 }

/-- Codepoint-lexicographic comparison of character lists, as Python and
pandas compare strings when sorting group keys. -/
def strLeChars : List Char → List Char → Bool
  | [], _ => true
  | _ :: _, [] => false
  | a :: as, b :: bs =>
    if a.toNat < b.toNat then true
    else if b.toNat < a.toNat then false
    else strLeChars as bs

/-- Codepoint-lexicographic string comparison. -/
def strLe (a b : String) : Bool := strLeChars a.toList b.toList

/-- Stable insertion into a sorted list; building block of the sort used to
model pandas `sort_values` and the sorted key order of `groupby`. -/
def insertLe (le : α → α → Bool) (a : α) : List α → List α
  | [] => [a]
  | b :: l => if le a b then a :: b :: l else b :: insertLe le a l

/-- Stable insertion sort. -/
def sortLe (le : α → α → Bool) (l : List α) : List α := l.foldr (insertLe le) []

/-- Substring test, modelling the Python expression `needle in haystack` on
strings (used for the `'state' in col` column scan). -/
def strContains (hay needle : String) : Bool :=
  hay.toList.tails.any (fun t => needle.toList.isPrefixOf t)

/-- First whitespace-separated word of a string, modelling
`label.split()[0]`. -/
def firstWord (s : String) : String :=
  String.mk (s.toList.takeWhile (fun c => !(c == ' ')))

/-- Leading word-characters of a string, modelling the pandas extraction with
the pattern of a word followed by an opening parenthesis applied to the model
renderings produced below. -/
def extractWord (s : String) : String :=
  String.mk (s.toList.takeWhile (fun c => c.isAlphanum || c == '_'))

/-- Python dict assignment `d[k] = v`: overwrite the binding in place when the
key exists, otherwise append it. -/
def dictInsert (k : String) (v : α) (d : List (String × α)) : List (String × α) :=
  if d.any (fun e => e.1 == k) then
    d.map (fun e => if e.1 == k then (k, v) else e)
  else d ++ [(k, v)]

/-- Effect of `dictInsert` on the key list alone. -/
def keyInsert (ks : List String) (k : String) : List String :=
  if k ∈ ks then ks else ks ++ [k]

/-- The `FEATURES` registry of the four named feature sets. -/
def FEATURES : List (String × List String) :=
  [("naive", ["lag_prisoner_cases", "new_prisoner_cases"]),
   ("population", ["pop_2020", "pop_2018", "capacity", "pct_occup",
                   "lag_prisoner_cases", "new_prisoner_cases"]),
   ("policy", ["no_visits", "lawyer_access", "phone_access", "video_access",
               "no_volunteers", "limiting_movement", "screening",
               "healthcare_support", "lag_prisoner_cases",
               "new_prisoner_cases"]),
   ("total", ["pop_2020", "pop_2018", "capacity", "pct_occup", "no_visits",
              "lawyer_access", "phone_access", "video_access", "no_volunteers",
              "limiting_movement", "screening", "healthcare_support",
              "lag_prisoner_cases", "new_prisoner_cases"])]

/-- Python dict lookup `FEATURES[k]`, `none` modelling the `KeyError` case. -/
def featuresLookup (k : String) : Option (List String) :=
  (FEATURES.find? (fun e => e.1 == k)).map (·.2)

/-- The `TARGET` constant. -/
def TARGET : String := "total_prisoner_cases"

/-- The `DEGREES` constant. -/
def DEGREES : List Nat := [1, 2, 3]

/-- Hyperparameter value: Boolean flag or numeric value. -/
inductive PVal where
  | b (x : Bool)
  | n (x : ℚ)
deriving DecidableEq

/-- A hyperparameter mapping, as the ordered dict of one `GRID` entry. -/
abbrev Params := List (String × PVal)

/-- The model registry `MODELS`, by family name; the solver behaviour itself
is an external collaborator and is supplied as a fit/predict function where
needed. -/
def MODELS : List String := ["LinearRegression", "Lasso", "Ridge", "ElasticNet"]

/-- The alpha values appearing in `GRID`. -/
def gridAlphas : List ℚ := [mkRat 1 1000, mkRat 1 100, mkRat 1 10, 1, 10, 100, 1000, 10000]

/-- The hyperparameter grid `GRID`, keyed by model family name. -/
def GRID (m : String) : List Params :=
  if m = "LinearRegression" then
    [[("normalize", PVal.b false), ("fit_intercept", PVal.b true)]]
  else if m = "Lasso" || m = "Ridge" || m = "ElasticNet" then
    gridAlphas.map (fun a => [("alpha", PVal.n a), ("random_state", PVal.n 0)])
  else []

/-- Rendering of one hyperparameter value inside a model rendering. -/
def renderPVal : PVal → String
  | .b true => "True"
  | .b false => "False"
  | .n q => toString q.num ++ "/" ++ toString q.den

/-- Rendering of a hyperparameter mapping inside a model rendering. -/
def renderParams (ps : Params) : String :=
  String.intercalate ", " (ps.map (fun e => e.1 ++ ": " ++ renderPVal e.2))

/-- Modelled from the spec: the string rendering `str(model_instance)` of a
configured model instance of an external solver family, with the configured
hyperparameters embedded in the rendering, as the spec's key-uniqueness
contract for the Grid Search Runner requires. -/
def strModel (family : String) (ps : Params) : String :=
  family ++ "(" ++ renderParams ps ++ ")"

/-- One expanding-window temporal cross-validation fold as built by
`time_cv_split`: the dict with keys `test_week`, `train` and `test`. -/
structure Fold where
  test_week : Nat
  train : List Row
  test : List Row

/-- `time_cv_split`: walks the weeks strictly between the first row's week and
the last row's week, and for each such week `w` emits the fold testing on week
`w + 1` and training on all weeks up to `w` except the earliest one. -/
def time_cv_split (train : List Row) : List Fold :=
  let earliest := ((train.head?).map (·.week)).getD 0
  let latest := ((train.getLast?).map (·.week)).getD 0
  (List.range' (earliest + 1) (latest - (earliest + 1))).map (fun week =>
    { test_week := week + 1,
      train := train.filter (fun r => decide (r.week ≤ week) && (r.week != earliest)),
      test := train.filter (fun r => r.week == week + 1) })

/-- The metric record returned by `evaluate_model`. -/
structure EvalMetrics where
  mse : ℚ
  mae : ℚ
  rss : ℚ
deriving DecidableEq

/-- `evaluate_model`: mean squared error, mean absolute error and residual sum
of squares of predictions against true values.  `none` models the exception
the external metric routines raise on length mismatch or empty input. -/
def evaluate_model (y_test predictions : List ℚ) : Option EvalMetrics :=
  if predictions.length = y_test.length ∧ y_test.length ≠ 0 then
    let residuals := (predictions.zip y_test).map (fun e => e.1 - e.2)
    let n : ℚ := y_test.length
    some { mse := (residuals.map (fun d => d ^ 2)).sum / n,
           mae := (residuals.map (fun d => |d|)).sum / n,
           rss := (residuals.map (fun d => d ^ 2)).sum }
  else none

/-- The coefficient-label list built at the start of `get_feature_importance`:
a bias label when the degree is truthy, then one label per feature and power. -/
def get_feature_importance_labels (features : List String) (degree : Nat) : List String :=
  let feature_list := if degree != 0 then ["1"] else []
  let deg := if degree != 0 then degree else 1
  feature_list ++
    (List.range' 1 deg).flatMap (fun p => features.map (fun f => f ++ "^" ++ toString p))

/-- A feature matrix: one inner list of column values per row. -/
abbrev Mat := List (List ℚ)

/-- Number of columns a matrix presents to the expander (width of its first
row). -/
def matWidth (m : Mat) : Nat := ((m.head?).map List.length).getD 0

/-- Modelled from the spec: the external polynomial expander (black box with
fit/transform semantics and the degree fixed at construction).  `fittedOn`
is the data the expander is currently fitted on and `fits` is the trace of
every matrix it was ever fitted on; the expansion map itself is supplied as a
function parameter `expandRow`. -/
structure PolyState where
  degree : Nat
  fittedOn : Option Mat
  fits : List Mat

/-- A freshly constructed expander of the given degree. -/
def polyInit (deg : Nat) : PolyState := { degree := deg, fittedOn := none, fits := [] }

/-- `fit_transform`: record the matrix as the fitted data and expand it. -/
def polyFitTransform (expandRow : Nat → List ℚ → List ℚ) (p : PolyState) (m : Mat) :
    PolyState × Mat :=
  ({ p with fittedOn := some m, fits := p.fits ++ [m] },
   m.map (expandRow p.degree))

/-- `transform`: expand using the fitted expander, requiring a fit to have
happened and the widths to agree; no fit event is recorded. -/
def polyTransform (expandRow : Nat → List ℚ → List ℚ) (p : PolyState) (m : Mat) :
    Option Mat :=
  p.fittedOn.bind (fun fm =>
    if m.all (fun r => r.length == matWidth fm) then some (m.map (expandRow p.degree))
    else none)

/-- The design-matrix construction of `cross_validate` for one degree of one
fold: a fresh expander, `fit_transform` on the train matrix, then
`fit_transform` again on the test matrix.  Returns the train design matrix,
the test design matrix and the final expander state. -/
def cv_design (expandRow : Nat → List ℚ → List ℚ) (deg : Nat) (trainM testM : Mat) :
    Mat × Mat × PolyState :=
  let poly := polyInit deg
  let ft := polyFitTransform expandRow poly trainM
  let ft2 := polyFitTransform expandRow ft.1 testM
  (ft.2, ft2.2, ft2.1)

/-- Modelled from the spec: the claimed construction, which fits the expander
on the train matrix only and merely transforms the test matrix with the
fitted expander. -/
def cv_design_claimed (expandRow : Nat → List ℚ → List ℚ) (deg : Nat) (trainM testM : Mat) :
    Mat × Option Mat :=
  let ft := polyFitTransform expandRow (polyInit deg) trainM
  (ft.2, polyTransform expandRow ft.1 testM)

/-- One value row of the `model_perf` dictionary built by `build_classifier`. -/
structure PerfRecord where
  mse : ℚ
  mae : ℚ
  rss : ℚ
  run_time : ℚ
  parameters : Params
  model_type : String

/-- The external solver capability: given the family name, the hyperparameter
mapping, the training design matrix, the training targets and the test design
matrix, produce the predictions.  Being a function, it captures the claims'
assumption that the model families contain no randomness. -/
abbrev FitPredict := String → Params → Mat → List ℚ → Mat → List ℚ

/-- `build_classifier`: read the clock, fit and predict, evaluate, read the
clock again, and store the metric record in `model_perf` keyed by the string
rendering of the configured model instance.  The state is the dictionary
paired with the clock-tick counter; `none` models the exception propagated
from `evaluate_model`. -/
def build_classifier (fitPredict : FitPredict) (clock : Nat → ℚ)
    (X_train : Mat) (y_train : List ℚ) (X_test : Mat) (y_test : List ℚ)
    (family : String) (param : Params)
    (state : List (String × PerfRecord) × Nat) :
    Option (List (String × PerfRecord) × Nat) :=
  let start := clock state.2
  let predictions := fitPredict family param X_train y_train X_test
  (evaluate_model y_test predictions).map (fun em =>
    let stop := clock (state.2 + 1)
    let key := strModel family param
    (dictInsert key
      { mse := em.mse, mae := em.mae, rss := em.rss,
        run_time := stop - start, parameters := param, model_type := key }
      state.1,
     state.2 + 2))

/-- One row of the dataframe returned by `run_grid_search`: the index key, the
metric record, and the appended `test_week` and `degree` columns. -/
structure GridRow where
  key : String
  perf : PerfRecord
  test_week : Nat
  degree : Nat

/-- The (model family × hyperparameter) combinations visited by the two nested
loops of `run_grid_search`, in iteration order. -/
def comboList (models : List String) (grid : String → List Params) : List (String × Params) :=
  models.flatMap (fun m => (grid m).map (fun p => (m, p)))

/-- `run_grid_search`: run `build_classifier` for every model family and every
hyperparameter combination, then annotate every dictionary row with the fold's
test week and the degree.  Threads the clock-tick counter. -/
def run_grid_search (fitPredict : FitPredict) (clock : Nat → ℚ)
    (X_train : Mat) (y_train : List ℚ) (X_test : Mat) (y_test : List ℚ)
    (test_week : Nat) (degree : Nat) (models : List String)
    (grid : String → List Params) (t : Nat) : Option (List GridRow × Nat) :=
  ((comboList models grid).foldl
    (fun acc mp =>
      acc.bind (fun dt =>
        build_classifier fitPredict clock X_train y_train X_test y_test mp.1 mp.2 dt))
    (some ([], t))).map
    (fun dt => (dt.1.map (fun kr => { key := kr.1, perf := kr.2,
                                      test_week := test_week, degree := degree }),
                dt.2))

/-- The keys `run_grid_search` writes for the concrete registry and grid, in
iteration order. -/
def gridKeys : List String := (comboList MODELS GRID).map (fun mp => strModel mp.1 mp.2)

/-- One row of the final evaluation table `cv_df` produced by
`cross_validate`, after the index is reset into the `model` column and the
label is rewritten to family, degree and hyperparameters. -/
structure EvalRow where
  model : String
  mse : ℚ
  mae : ℚ
  rss : ℚ
  run_time : ℚ
  parameters : Params
  model_type : String
  test_week : Nat
  degree : Nat

/-- The label rewrite of `cross_validate`: the leading word of the index key,
the degree and the rendered hyperparameters. -/
def relabelRow (g : GridRow) : EvalRow :=
  { model := extractWord g.key ++ " degree_" ++ toString g.degree ++ " " ++
             renderParams g.perf.parameters,
    mse := g.perf.mse, mae := g.perf.mae, rss := g.perf.rss,
    run_time := g.perf.run_time, parameters := g.perf.parameters,
    model_type := g.perf.model_type, test_week := g.test_week,
    degree := g.degree }

/-- The per-fold data preparation of `cross_validate` (normalise the
population block fitting on the fold's train only, apply to test, and merge
the normalised columns back), abstracted over the external normaliser
fit/apply pair, which the spec treats as a black box. -/
def foldPrep {σ : Type} (normFit : List Row → List Row × σ)
    (normApply : List Row → σ → List Row) (train test : List Row) :
    List Row × List Row :=
  let fitres := normFit train
  (fitres.1, normApply test fitres.2)

/-- Restriction of rows to a feature list, `df[features]`. -/
def rowsMatrix (rows : List Row) (features : List String) : Mat :=
  rows.map (fun r => features.map (fun f => r.cols f))

/-- Column extraction `df[target]`. -/
def rowsCol (rows : List Row) (target : String) : List ℚ :=
  rows.map (fun r => r.cols target)

/-- Inner degree loop of `cross_validate`: for every degree, build the
polynomial design matrices (both by `fit_transform`, as in the source) and
append the grid-search dataframe to the running concatenation list. -/
def cv_fold_degrees (expandRow : Nat → List ℚ → List ℚ) (fitPredict : FitPredict)
    (clock : Nat → ℚ) (trainP testP : List Row) (features : List String)
    (target : String) (tw : Nat) (degrees : List Nat) (models : List String)
    (grid : String → List Params) (acc : List GridRow × Nat) :
    Option (List GridRow × Nat) :=
  degrees.foldl (fun acc2 deg =>
    acc2.bind (fun et2 =>
      let design := cv_design expandRow deg (rowsMatrix trainP features)
                      (rowsMatrix testP features)
      (run_grid_search fitPredict clock design.1 (rowsCol trainP target)
          design.2.1 (rowsCol testP target) tw deg models grid et2.2).map
        (fun gt => (et2.1 ++ gt.1, gt.2))))
    (some acc)

/-- `cross_validate`: for every fold, normalise and merge (via `foldPrep`),
run the inner degree loop, concatenating every grid-search dataframe; then
reset the index into the `model` column and rewrite the label (`relabelRow`).
`none` models the exceptions raised on an empty concatenation list or
propagated from the grid search. -/
def cross_validate {σ : Type} (normFit : List Row → List Row × σ)
    (normApply : List Row → σ → List Row)
    (expandRow : Nat → List ℚ → List ℚ) (fitPredict : FitPredict)
    (clock : Nat → ℚ) (temporal_splits : List Fold) (features : List String)
    (target : String) (degrees : List Nat) (models : List String)
    (grid : String → List Params) : Option (List EvalRow) :=
  (temporal_splits.foldl (fun acc cv =>
      acc.bind (fun et =>
        let prep := foldPrep normFit normApply cv.train cv.test
        cv_fold_degrees expandRow fitPredict clock prep.1 prep.2 features target
          cv.test_week degrees models grid et))
    (some ([], 0))).bind (fun et =>
    if temporal_splits.isEmpty || degrees.isEmpty then none
    else some (et.1.map relabelRow))

/-- Erase the `run_time` column of an evaluation row. -/
def stripTime (r : EvalRow) : EvalRow := { r with run_time := 0 }

/-- One row of the per-label mean table `by_model_means`. -/
structure MeanRow where
  model : String
  mse : ℚ
  mae : ℚ
  rss : ℚ

/-- The sorted distinct labels of an evaluation table, as pandas `groupby`
orders its groups. -/
def groupLabels (t : List EvalRow) : List String :=
  sortLe strLe ((t.map (fun r => r.model)).dedup)

/-- The mean metric row of one label group. -/
def labelMean (t : List EvalRow) (lbl : String) : MeanRow :=
  let g := t.filter (fun r => r.model == lbl)
  let n : ℚ := g.length
  { model := lbl,
    mse := (g.map (fun r => r.mse)).sum / n,
    mae := (g.map (fun r => r.mae)).sum / n,
    rss := (g.map (fun r => r.rss)).sum / n }

/-- `cv_results.groupby('model').mean()` with the index reset: one mean row
per label, in sorted label order. -/
def by_model_means (t : List EvalRow) : List MeanRow :=
  (groupLabels t).map (labelMean t)

/-- The rows of the mean table attaining the minimum of one metric column. -/
def bestRowsFor (metric : MeanRow → ℚ) (bm : List MeanRow) : List MeanRow :=
  match (bm.map metric).min? with
  | some m => bm.filter (fun r => metric r == m)
  | none => []

/-- `find_best_model`: the mean rows minimising mse, then those minimising
mae, then those minimising rss, concatenated (duplicates allowed). -/
def find_best_model (t : List EvalRow) : List MeanRow :=
  let bm := by_model_means t
  bestRowsFor (fun r => r.mse) bm ++ bestRowsFor (fun r => r.mae) bm ++
    bestRowsFor (fun r => r.rss) bm

/-- The pooled best labels, in pool order. -/
def poolLabels (t : List EvalRow) : List String :=
  (find_best_model t).map (fun r => r.model)

/-- The label-selection block of `run_temporal_cv`: group the pool by exact
label (sorted keys) with group sizes, reset the index, sort by count
descending, and read the `model` cell at index label 0 — which, the index
labels having been attached before the sort, is the row that was first in the
sorted key order, not the row with the largest count. -/
def best_single (t : List EvalRow) : Option String :=
  let pool := find_best_model t
  let keys := sortLe strLe ((pool.map (fun r => r.model)).dedup)
  let best_type := (keys.map (fun k => (k, (pool.filter (fun r => r.model == k)).length))).enum
  let sorted := sortLe (fun a b => decide (b.2.2 ≤ a.2.2)) best_type
  (sorted.find? (fun e => e.1 == 0)).map (fun e => e.2.1)

/-- The per-feature-set result record assembled by `run_temporal_cv`. -/
structure BestParams where
  degree : Nat
  params : Params
  model_type : String

/-- The winning-configuration extraction of `run_temporal_cv`: the first row
of the evaluation table whose label equals the selected label, reduced to its
degree, hyperparameters and the leading word of the label. -/
def select_best (t : List EvalRow) : Option BestParams :=
  (best_single t).bind (fun lbl =>
    ((t.filter (fun r => r.model == lbl)).head?).map (fun row =>
      { degree := row.degree, params := row.parameters,
        model_type := firstWord lbl }))

/-- The model family of a rewritten evaluation label (its leading word). -/
def familyOf (lbl : String) : String := firstWord lbl

/-- Occurrences of a model family in the pooled best labels — the tally the
claim says decides the winner. -/
def familyTally (pool : List MeanRow) (fam : String) : Nat :=
  (pool.filter (fun r => familyOf r.model == fam)).length

/-- Errors of the Normalization & Feature Assembly step:
`configurationError` models the `KeyError` raised by the feature-registry
lookup on an unrecognised feature-set name (the spec's ConfigurationError),
and `indexError` the positional-indexing failure on an empty frame. -/
inductive PhError where
  | configurationError (key : String)
  | indexError
deriving DecidableEq

/-- Restriction `df.loc[:, cs]` of rows to a column block (other columns
zeroed). -/
def restrictRows (rows : List Row) (cs : List String) : List Row :=
  rows.map (fun r => { r with cols := fun c => if c ∈ cs then r.cols c else 0 })

/-- Merge of normalised columns back into the frame by row alignment:
the normalised block replaces the named columns. -/
def mergeNorm (rows normed : List Row) (cs : List String) : List Row :=
  rows.zipWith (fun r nr =>
    { r with cols := fun c => if c ∈ cs then nr.cols c else r.cols c }) normed

/-- `normalize_prep_eval_data`: normalise the population block (fit on train,
apply to test — the normaliser itself is the external collaborator supplied as
`normFit`/`normApply`), merge the normalised columns back, drop the earliest
week from train, assemble the requested feature set plus the state indicator
columns (and optionally the date), and split into X/y frames.  Failures follow
the source's order: positional indexing on an empty train frame, then the
feature-registry lookup. -/
def normalize_prep_eval_data {σ : Type} (normFit : List Row → List Row × σ)
    (normApply : List Row → σ → List Row) (train test : Df) (feat_type : String)
    (include_date : Bool) : Except PhError (Df × List ℚ × Df × List ℚ) :=
  let norm_features := (featuresLookup "population").getD []
  let fitres := normFit (restrictRows train.rows norm_features)
  let test_norm := normApply (restrictRows test.rows norm_features) fitres.2
  let trainRows := mergeNorm train.rows fitres.1 norm_features
  let testRows := mergeNorm test.rows test_norm norm_features
  match trainRows.head? with
  | none => .error .indexError
  | some r0 =>
    let trainRows2 := trainRows.filter (fun r => r.week != r0.week)
    let states := train.columns.filter (fun c => strContains c "state")
    match featuresLookup feat_type with
    | none => .error (.configurationError feat_type)
    | some fs =>
      let feature_set := fs ++ states ++ (if include_date then ["as_of_date"] else [])
      .ok ({ columns := feature_set, rows := trainRows2 },
           rowsCol trainRows2 TARGET,
           { columns := feature_set, rows := testRows },
           rowsCol testRows TARGET)

/-- Sequential application of the override dict of the Forward Simulator. -/
def applyOverrides (r : Row) (feat_dict : List (String × ℚ)) : Row :=
  feat_dict.foldl (fun acc e => setCol acc e.1 e.2) r

/-- The simulated-row construction of `simulate` (the slice before the call
into `normalize_prep_eval_data` and the model fit): drop the earliest week,
take the rows of the latest remaining week, advance each date label by one,
set the lag column to the current target, set the target to current target
plus new cases, then apply every override.  `none` models the positional
indexing failures on empty frames. -/
def simulate_build_test (dataset : List Row) (feat_dict : List (String × ℚ)) :
    Option (List Row) :=
  match dataset.head? with
  | none => none
  | some r0 =>
    let earliest := r0.week
    let rest := dataset.filter (fun r => r.week != earliest)
    match rest.getLast? with
    | none => none
    | some rl =>
      let latest_week := rl.week
      let test0 := rest.filter (fun r => r.week == latest_week)
      let test1 := test0.map (fun r => { r with week := r.week + 1 })
      let test2 := test1.map (fun r =>
        setCol r "lag_prisoner_cases" (r.cols "total_prisoner_cases"))
      let test3 := test2.map (fun r =>
        setCol r "total_prisoner_cases"
          (r.cols "total_prisoner_cases" + r.cols "new_prisoner_cases"))
      some (test3.map (fun r => applyOverrides r feat_dict))

/-- Erase the `run_time` field of a metric record. -/
def stripRec (r : PerfRecord) : PerfRecord := { r with run_time := 0 }

/-- Erase the `run_time` field of a grid-search row. -/
def stripGrid (g : GridRow) : GridRow := { g with perf := stripRec g.perf }

/-- Strip a dictionary state to its clock-independent part. -/
def stripDict (d : List (String × PerfRecord)) : List (String × PerfRecord) :=
  d.map (fun e => (e.1, stripRec e.2))

/-- Sortedness with respect to a Boolean comparison. -/
def IsSortedLe (le : α → α → Bool) (l : List α) : Prop :=
  List.Pairwise (fun a b => le a b = true) l

/-- A row with every column zero, for concrete frames. -/
def zeroRow (w : Nat) : Row := { week := w, cols := fun _ => 0 }

/-- Concrete four-week training frame (weeks 1 to 4). -/
def W4data : List Row := [zeroRow 1, zeroRow 2, zeroRow 3, zeroRow 4]

/-- Concrete two-week training frame. -/
def W10data : List Row := [zeroRow 2, zeroRow 3]

/-- Column values of the latest week of the concrete simulator frame. -/
def w5cols : String → ℚ := fun c =>
  if c = "total_prisoner_cases" then 5 else if c = "new_prisoner_cases" then 2 else 0

/-- Concrete two-week dataset for the Forward Simulator. -/
def W5data : List Row := [zeroRow 1, { week := 2, cols := w5cols }]

/-- A concrete deterministic fit/predict function: predict zero for every
test row. -/
def c3fit : FitPredict := fun _ _ _ _ X_test => X_test.map (fun _ => 0)

/-- A concrete constant clock. -/
def c3clock : Nat → ℚ := fun _ => 0

/-- Shared fields of the concrete evaluation-table rows. -/
def mkEvalRow (lbl : String) (mse mae rss : ℚ) (deg : Nat) : EvalRow :=
  { model := lbl, mse := mse, mae := mae, rss := rss, run_time := 0,
    parameters := [], model_type := lbl, test_week := 3, degree := deg }

/-- Concrete evaluation table on which the selection block's behaviour
diverges from the claimed per-family tally: the pooled best labels are the
two Ridge labels (for mse and mae) and the Lasso label (for rss). -/
def T1 : List EvalRow :=
  [mkEvalRow "Lasso degree_1 pc" 3 3 1 1,
   mkEvalRow "Ridge degree_1 pa" 1 2 2 1,
   mkEvalRow "Ridge degree_2 pb" 2 1 3 2]

/-- Concrete one-row training frame for the feature-assembly failure claim. -/
def W9train : Df := { columns := ["as_of_date", "state_alabama"], rows := [zeroRow 1] }

/-- Concrete empty testing frame for the feature-assembly failure claim. -/
def W9test : Df := { columns := ["as_of_date", "state_alabama"], rows := [] }

/-- Auxiliary: the sum of a constantly-zero mapped list vanishes. -/
theorem sum_map_zero (l : List α) : (l.map (fun _ => (0 : ℚ))).sum = 0 := by
  induction l with
  | nil => rfl
  | cons a l ih => simp [ih]

/-- C10: for a chronologically sorted, non-empty training frame whose earliest
and latest week numbers satisfy latest ≤ earliest + 1, `time_cv_split`
returns the empty fold list; being total on such input, it raises no error
even though no cross-validation is then possible. -/
theorem C10_few_weeks_empty_folds (train : List Row) (h : train ≠ [])
    (_hsort : List.Chain' (fun a b => a.week ≤ b.week) train)
    (hfew : (train.getLast h).week ≤ (train.head h).week + 1) :
    time_cv_split train = [] := by
  unfold time_cv_split
  rw [List.head?_eq_head h, List.getLast?_eq_getLast train h]
  simp [Nat.sub_eq_zero_of_le hfew]

/-- Witness for C10: a sorted two-week frame yields no folds. -/
theorem C10_witness : time_cv_split W10data = [] :=
  C10_few_weeks_empty_folds W10data (by simp [W10data])
    (by simp [W10data, List.chain'_pair, zeroRow])
    (by simp [W10data, zeroRow])

/-- C8: the coefficient labels of the Feature Importance Extractor for
degree 2 and features a, b are exactly the bias label followed by the four
degree-annotated labels; in general, for a non-empty feature list and a
truthy degree, the labels are the bias label followed by one label per power
and feature, powers outermost. -/
theorem C8_importance_labels :
    get_feature_importance_labels ["a", "b"] 2 = ["1", "a^1", "b^1", "a^2", "b^2"] ∧
    ∀ (features : List String) (d : Nat), features ≠ [] → d ≠ 0 →
      get_feature_importance_labels features d =
        "1" :: (List.range' 1 d).flatMap
          (fun p => features.map (fun f => f ++ "^" ++ toString p)) := by
  constructor
  · decide
  · intro features d _ hd
    unfold get_feature_importance_labels
    have hb : (d != 0) = true := by simpa using hd
    simp [hb]

/-- Witness for C8 at one feature and degree one. -/
theorem C8_witness :
    (["x"] ≠ ([] : List String)) ∧ ((1 : Nat) ≠ 0) ∧
    get_feature_importance_labels ["x"] 1 =
      "1" :: (List.range' 1 1).flatMap (fun p => ["x"].map (fun f => f ++ "^" ++ toString p)) :=
  ⟨by decide, by decide, C8_importance_labels.2 ["x"] 1 (by decide) (by decide)⟩

/-- C6: the Metric Evaluator returns all-zero metrics when the predictions
equal the true values, and whenever it returns a record, the rss equals the
mse multiplied by the number of elements. -/
theorem C6_metric_evaluator :
    (∀ y : List ℚ, y ≠ [] → evaluate_model y y = some ⟨0, 0, 0⟩) ∧
    (∀ (y p : List ℚ) (m : EvalMetrics), evaluate_model y p = some m →
      m.rss = m.mse * (y.length : ℚ)) := by
  constructor
  · intro y hy
    have hlen : y.length ≠ 0 := by simpa using hy
    have hzip : y.zip y = y.map (fun a => (a, a)) := by
      simpa using List.zip_map' id id y
    unfold evaluate_model
    rw [if_pos ⟨rfl, hlen⟩]
    have hres : (y.zip y).map (fun e : ℚ × ℚ => e.1 - e.2) = y.map (fun _ => (0 : ℚ)) := by
      rw [hzip, List.map_map]
      apply List.map_congr_left
      intro a _
      simp
    simp only [hres, List.map_map]
    have hc2 : ((fun d : ℚ => d ^ 2) ∘ fun _ : ℚ => (0 : ℚ)) = fun _ : ℚ => (0 : ℚ) := by
      funext a; simp
    have hc3 : ((fun d : ℚ => |d|) ∘ fun _ : ℚ => (0 : ℚ)) = fun _ : ℚ => (0 : ℚ) := by
      funext a; simp
    simp [hc2, hc3, sum_map_zero]
  · intro y p m hm
    unfold evaluate_model at hm
    by_cases hc : p.length = y.length ∧ y.length ≠ 0
    · rw [if_pos hc] at hm
      have hn : ((y.length : ℚ)) ≠ 0 := Nat.cast_ne_zero.mpr hc.2
      cases hm
      simp [div_mul_cancel₀ _ hn]
    · rw [if_neg hc] at hm
      exact absurd hm (by simp)

/-- Witness for C6: zero metrics on identical lists, and the rss/mse count
relation at a concrete two-element evaluation. -/
theorem C6_witness :
    evaluate_model [(1 : ℚ), 2] [1, 2] = some ⟨0, 0, 0⟩ ∧
    EvalMetrics.rss ⟨13 / 2, 5 / 2, 13⟩ =
      EvalMetrics.mse ⟨13 / 2, 5 / 2, 13⟩ * (([(1 : ℚ), 2] : List ℚ).length : ℚ) := by
  constructor
  · exact C6_metric_evaluator.1 [1, 2] (by simp)
  · exact C6_metric_evaluator.2 [1, 2] [3, 5] ⟨13 / 2, 5 / 2, 13⟩ (by unfold evaluate_model; norm_num)

/-- Counterexample for C2: running the design-matrix construction of
`cross_validate` on a one-row train matrix and a distinct one-row test matrix
leaves the expander fitted on the test matrix, with a fit event recorded on
the test data — the expansion is refit on the test data, contrary to the
claim. -/
theorem C2_counterexample :
    (cv_design (fun _ r => r) 1 [[1]] [[2]]).2.2.fits = [[[1]], [[2]]] ∧
    (cv_design (fun _ r => r) 1 [[1]] [[2]]).2.2.fittedOn = some [[2]] ∧
    ([[(2 : ℚ)]] : Mat) ≠ [[1]] := by
  refine ⟨rfl, rfl, ?_⟩
  intro hcontra
  have h2 : (2 : ℚ) = 1 := by
    have h1 := List.head_eq_of_cons_eq hcontra
    exact List.head_eq_of_cons_eq h1
  norm_num at h2

/-- C2 amended: for every fold and degree the orchestrator builds the test
design matrix by `fit_transform` on the test data — refitting the expansion on
test — but because the expansion map depends only on the degree and is applied
rowwise, the matrix it builds coincides with the one the claimed train-fitted
transform produces whenever the test rows have the train width; the fit trace
nevertheless records the fit on the test matrix. -/
theorem C2_amended_refit_equal (expandRow : Nat → List ℚ → List ℚ) (deg : Nat)
    (trainM testM : Mat) (hw : ∀ r ∈ testM, r.length = matWidth trainM) :
    (cv_design_claimed expandRow deg trainM testM).2 =
      some (cv_design expandRow deg trainM testM).2.1 ∧
    testM ∈ (cv_design expandRow deg trainM testM).2.2.fits := by
  constructor
  · unfold cv_design_claimed cv_design polyTransform polyFitTransform polyInit
    simp only [Option.some_bind]
    rw [if_pos ?_]
    rw [List.all_eq_true]
    intro r hr
    simpa using hw r hr
  · unfold cv_design polyFitTransform polyInit
    simp

/-- Witness for C2's amended statement at concrete singleton matrices. -/
theorem C2_amended_witness :
    (∀ r ∈ ([[(2 : ℚ)]] : Mat), r.length = matWidth [[1]]) ∧
    (cv_design_claimed (fun _ r => r) 1 [[1]] [[2]]).2 =
      some (cv_design (fun _ r => r) 1 [[1]] [[2]]).2.1 ∧
    ([[(2 : ℚ)]] : Mat) ∈ (cv_design (fun _ r => r) 1 [[1]] [[2]]).2.2.fits := by
  have hw : ∀ r ∈ ([[(2 : ℚ)]] : Mat), r.length = matWidth [[1]] := by
    intro r hr
    rw [List.mem_singleton.mp hr]
    rfl
  exact ⟨hw, C2_amended_refit_equal (fun _ r => r) 1 [[1]] [[2]] hw⟩

/-- C9: for any train/test frames with a non-empty training frame and a
row-count-preserving normaliser, an unrecognised feature-set name makes the
Normalization & Feature Assembly step fail with the configuration error
(the `KeyError` of the feature-registry lookup). -/
theorem C9_unknown_feature_set {σ : Type} (normFit : List Row → List Row × σ)
    (normApply : List Row → σ → List Row) (train test : Df) (feat_type : String)
    (include_date : Bool)
    (hnorm : ∀ rs, ((normFit rs).1).length = rs.length)
    (hrows : train.rows ≠ [])
    (hft : feat_type ∉ ["naive", "population", "policy", "total"]) :
    normalize_prep_eval_data normFit normApply train test feat_type include_date =
      Except.error (PhError.configurationError feat_type) := by
  have hm : ∀ e ∈ FEATURES, ¬ (e.1 == feat_type) = true := by
    intro e he hbeq
    rw [beq_iff_eq] at hbeq
    apply hft
    rw [← hbeq]
    revert he
    unfold FEATURES
    intro he
    simp only [List.mem_cons] at he
    rcases he with h | h | h | h | h
    all_goals first
      | (rw [h]; simp)
      | exact absurd h (by simp)
  have hlook : featuresLookup feat_type = none := by
    unfold featuresLookup
    rw [List.find?_eq_none.mpr hm]
    rfl
  unfold normalize_prep_eval_data
  set nf := (featuresLookup "population").getD [] with hnf
  have hlen : (mergeNorm train.rows (normFit (restrictRows train.rows nf)).1 nf).length =
      train.rows.length := by
    unfold mergeNorm
    rw [List.length_zipWith, hnorm, ]
    unfold restrictRows
    rw [List.length_map, Nat.min_self]
  cases hhd : (mergeNorm train.rows (normFit (restrictRows train.rows nf)).1 nf).head? with
  | none =>
    rw [List.head?_eq_none_iff] at hhd
    rw [hhd] at hlen
    exact absurd hlen.symm (by simpa using hrows)
  | some r0 =>
    simp only [hhd, hlook]

/-- Witness for C9: the identity normaliser, a one-row training frame and the
unrecognised name yield the configuration error. -/
theorem C9_witness :
    ("bogus" ∉ ["naive", "population", "policy", "total"]) ∧
    normalize_prep_eval_data (σ := Unit) (fun rs => (rs, ())) (fun rs _ => rs)
        W9train W9test "bogus" false =
      Except.error (PhError.configurationError "bogus") :=
  ⟨by decide,
   C9_unknown_feature_set (fun rs => (rs, ())) (fun rs _ => rs) W9train W9test "bogus" false
     (fun rs => rfl) (by simp [W9train]) (by decide)⟩

/-- Auxiliary: in a week-sorted chain every listed element's week is at least
the base element's week. -/
theorem chain_head_le_week : ∀ (a : Row) (l : List Row),
    List.Chain (fun x y => x.week ≤ y.week) a l → ∀ s ∈ l, a.week ≤ s.week := by
  intro a l
  induction l generalizing a with
  | nil => intro _ s hs; exact absurd hs (by simp)
  | cons b t ih =>
    intro hc s hs
    rcases List.chain_cons.mp hc with ⟨hab, hbt⟩
    rcases List.mem_cons.mp hs with h1 | h1
    · rw [h1]; exact hab
    · exact le_trans hab (ih b hbt s h1)

/-- C4: for every fold produced by the Temporal Splitter from a
chronologically sorted non-empty training frame: the first row's week is the
globally earliest week, every training-row week is at most test_week − 1, the
globally earliest week never appears in fold.train, and fold.test contains
exactly the rows of the training frame whose week equals fold.test_week. -/
theorem C4_fold_invariants (train : List Row) (h : train ≠ [])
    (hsort : List.Chain' (fun a b => a.week ≤ b.week) train) :
    (∀ s ∈ train, (train.head h).week ≤ s.week) ∧
    ∀ fold ∈ time_cv_split train,
      (∀ r ∈ fold.train, r.week ≤ fold.test_week - 1) ∧
      (∀ r ∈ fold.train, r.week ≠ (train.head h).week) ∧
      (∀ r, r ∈ fold.test ↔ r ∈ train ∧ r.week = fold.test_week) := by
  constructor
  · intro s hs
    cases train with
    | nil => exact absurd rfl h
    | cons a t =>
      rcases List.mem_cons.mp hs with h1 | h1
      · rw [h1]; exact le_rfl
      · exact chain_head_le_week a t hsort s h1
  · intro fold hfold
    simp only [time_cv_split, List.head?_eq_head h, Option.map_some', Option.getD_some]
      at hfold
    rcases List.mem_map.mp hfold with ⟨w, hw, rfl⟩
    refine ⟨?_, ?_, ?_⟩
    · intro r hr
      have hp := (List.mem_filter.mp hr).2
      simp only [Bool.and_eq_true, decide_eq_true_eq, bne_iff_ne] at hp
      simpa using hp.1
    · intro r hr
      have hp := (List.mem_filter.mp hr).2
      simp only [Bool.and_eq_true, decide_eq_true_eq, bne_iff_ne] at hp
      exact hp.2
    · intro r
      constructor
      · intro hr
        have hm := List.mem_filter.mp hr
        exact ⟨hm.1, by simpa using hm.2⟩
      · intro hrw
        exact List.mem_filter.mpr ⟨hrw.1, by simpa using hrw.2⟩

/-- Witness for C4 on the four-week frame: weeks one to four give folds whose
training data never contains week one, respects the test-week bound, and whose
test partition is exactly the test week's rows. -/
theorem C4_witness :
    (∀ s ∈ W4data, 1 ≤ s.week) ∧
    ∀ fold ∈ time_cv_split W4data,
      (∀ r ∈ fold.train, r.week ≤ fold.test_week - 1) ∧
      (∀ r ∈ fold.train, r.week ≠ 1) ∧
      (∀ r, r ∈ fold.test ↔ r ∈ W4data ∧ r.week = fold.test_week) := by
  have h4 : W4data ≠ [] := by simp [W4data]
  have hc := C4_fold_invariants W4data h4 (by simp [W4data, zeroRow, List.chain'_cons])
  exact hc

/-- Auxiliary: a column not named among the overrides is untouched by the
override application. -/
theorem applyOverrides_not_mem : ∀ (fd : List (String × ℚ)) (r : Row) (c : String),
    c ∉ fd.map Prod.fst → (applyOverrides r fd).cols c = r.cols c := by
  intro fd
  induction fd with
  | nil => intro r c _; rfl
  | cons e fd ih =>
    intro r c hc
    simp only [List.map_cons, List.mem_cons] at hc
    push_neg at hc
    simp only [applyOverrides, List.foldl_cons] at *
    rw [ih (setCol r e.1 e.2) c hc.2]
    unfold setCol
    simp [hc.1]

/-- Auxiliary: with pairwise-distinct override keys, every override value is
visible in the final row. -/
theorem applyOverrides_mem : ∀ (fd : List (String × ℚ)),
    (fd.map Prod.fst).Nodup → ∀ (r : Row), ∀ e ∈ fd, (applyOverrides r fd).cols e.1 = e.2 := by
  intro fd
  induction fd with
  | nil => intro _ r e he; exact absurd he (by simp)
  | cons e0 fd ih =>
    intro hnd r e he
    have hnd' : (e0.1 :: fd.map Prod.fst).Nodup := by simpa using hnd
    have hk1 : e0.1 ∉ fd.map Prod.fst := (List.nodup_cons.mp hnd').1
    have hk2 : (fd.map Prod.fst).Nodup := (List.nodup_cons.mp hnd').2
    rcases List.mem_cons.mp he with h1 | h1
    · subst h1
      simp only [applyOverrides, List.foldl_cons]
      rw [show (fd.foldl (fun acc e2 => setCol acc e2.1 e2.2) (setCol r e.1 e.2)) =
            applyOverrides (setCol r e.1 e.2) fd from rfl]
      rw [applyOverrides_not_mem fd (setCol r e.1 e.2) e.1 hk1]
      unfold setCol
      simp
    · simp only [applyOverrides, List.foldl_cons]
      exact ih hk2 (setCol r e0.1 e0.2) e h1

/-- Auxiliary: when the last element of a list passes a filter, it is the last
element of the filtered list. -/
theorem getLast?_filter_last (p : Row → Bool) (l : List Row) (h : l ≠ [])
    (hp : p (l.getLast h) = true) :
    (l.filter p).getLast? = some (l.getLast h) := by
  conv_lhs => rw [← List.dropLast_append_getLast h]
  rw [List.filter_append]
  simp only [List.filter_cons, hp, if_pos, List.filter_nil]
  exact List.getLast?_concat _

/-- C5: on a chronologically sorted dataset with more than one distinct week,
the Forward Simulator's simulated rows carry the date label latest week plus
one, take their target from a latest-week row's target plus its new cases and
their lag from that row's target; and with a non-empty override mapping with
distinct keys, every override value overwrites its column afterwards. -/
theorem C5_forward_simulator (dataset : List Row) (h : dataset ≠ [])
    (_hsort : List.Chain' (fun a b => a.week ≤ b.week) dataset)
    (hw : (dataset.head h).week ≠ (dataset.getLast h).week) :
    (∀ ts, simulate_build_test dataset [] = some ts →
      ∀ r2 ∈ ts,
        r2.week = (dataset.getLast h).week + 1 ∧
        ∃ r ∈ dataset, r.week = (dataset.getLast h).week ∧
          r2.cols "total_prisoner_cases" =
            r.cols "total_prisoner_cases" + r.cols "new_prisoner_cases" ∧
          r2.cols "lag_prisoner_cases" = r.cols "total_prisoner_cases") ∧
    (∀ feat_dict : List (String × ℚ), (feat_dict.map Prod.fst).Nodup →
      ∀ ts, simulate_build_test dataset feat_dict = some ts →
        ∀ r2 ∈ ts, ∀ e ∈ feat_dict, r2.cols e.1 = e.2) := by
  have hlast : ((dataset.filter (fun r => r.week != (dataset.head h).week)).getLast?) =
      some (dataset.getLast h) :=
    getLast?_filter_last _ dataset h (by simpa using Ne.symm hw)
  constructor
  · intro ts hts r2 hr2
    simp only [simulate_build_test, List.head?_eq_head h, hlast] at hts
    rw [← Option.some.inj hts] at hr2
    simp only [List.map_map, List.mem_map] at hr2
    obtain ⟨r, hrmem, rfl⟩ := hr2
    have hr1 := List.mem_filter.mp hrmem
    have hrdata := (List.mem_filter.mp hr1.1).1
    have hrweek : r.week = (dataset.getLast h).week := by simpa using hr1.2
    have hd2 : ¬ ("total_prisoner_cases" : String) = "lag_prisoner_cases" := by decide
    have hd3 : ¬ ("new_prisoner_cases" : String) = "lag_prisoner_cases" := by decide
    have hd4 : ¬ ("lag_prisoner_cases" : String) = "total_prisoner_cases" := by decide
    refine ⟨by simpa using congrArg (· + 1) hrweek, r, hrdata, hrweek, ?_, ?_⟩
    · show (applyOverrides _ []).cols _ = _
      simp only [applyOverrides, List.foldl_nil, setCol]
      simp [hd2, hd3]
    · show (applyOverrides _ []).cols _ = _
      simp only [applyOverrides, List.foldl_nil, setCol]
      simp [hd2, hd3, hd4]
  · intro fd hnd ts hts r2 hr2
    simp only [simulate_build_test, List.head?_eq_head h, hlast] at hts
    rw [← Option.some.inj hts] at hr2
    simp only [List.map_map, List.mem_map] at hr2
    obtain ⟨r, _, rfl⟩ := hr2
    intro e he
    exact applyOverrides_mem fd hnd _ e he

/-- Witness for C5 on the concrete two-week dataset, with an empty override
mapping and with a single-override mapping. -/
theorem C5_witness :
    (∀ ts, simulate_build_test W5data [] = some ts →
      ∀ r2 ∈ ts, r2.week = 3 ∧
        ∃ r ∈ W5data, r.week = 2 ∧
          r2.cols "total_prisoner_cases" =
            r.cols "total_prisoner_cases" + r.cols "new_prisoner_cases" ∧
          r2.cols "lag_prisoner_cases" = r.cols "total_prisoner_cases") ∧
    (∀ ts, simulate_build_test W5data [("phone_access", 9)] = some ts →
      ∀ r2 ∈ ts, ∀ e ∈ [(("phone_access" : String), (9 : ℚ))], r2.cols e.1 = e.2) := by
  have h5 : W5data ≠ [] := by simp [W5data]
  have hc := C5_forward_simulator W5data h5
    (by simp [W5data, zeroRow, List.chain'_cons]) (by simp [W5data, zeroRow])
  exact ⟨hc.1, fun ts hts => hc.2 [("phone_access", 9)] (by simp) ts hts⟩

/-- Auxiliary: `dictInsert` acts on the key list as `keyInsert`. -/
theorem dictInsert_fst (k : String) (v : α) (d : List (String × α)) :
    (dictInsert k v d).map Prod.fst = keyInsert (d.map Prod.fst) k := by
  have hco : (d.any (fun e => e.1 == k) = true) ↔ k ∈ d.map Prod.fst := by
    rw [List.any_eq_true]
    simp only [List.mem_map, beq_iff_eq]
  unfold dictInsert keyInsert
  by_cases hmem : k ∈ d.map Prod.fst
  · rw [if_pos (hco.mpr hmem), if_pos hmem, List.map_map]
    apply List.map_congr_left
    intro e _
    by_cases hek : e.1 = k
    · simp [hek]
    · simp [hek]
  · rw [if_neg (fun hc => hmem (hco.mp hc)), if_neg hmem]
    simp

/-- Auxiliary: a bind-chaining fold over an option stays `none` from `none`. -/
theorem foldl_bind_none (f : β → α → Option α) : ∀ (l : List β),
    l.foldl (fun acc mp => acc.bind (f mp)) none = none := by
  intro l
  induction l with
  | nil => rfl
  | cons a l ih => simpa using ih

/-- Auxiliary: a successful `build_classifier` call extends the dictionary at
the rendered key and advances the tick counter by two. -/
theorem build_classifier_some (fitPredict : FitPredict) (clock : Nat → ℚ)
    (Xtr : Mat) (ytr : List ℚ) (Xte : Mat) (yte : List ℚ) (fam : String)
    (param : Params) (d : List (String × PerfRecord)) (t : Nat)
    (d2 : List (String × PerfRecord)) (t2 : Nat)
    (hb : build_classifier fitPredict clock Xtr ytr Xte yte fam param (d, t) = some (d2, t2)) :
    d2.map Prod.fst = keyInsert (d.map Prod.fst) (strModel fam param) ∧ t2 = t + 2 := by
  simp only [build_classifier] at hb
  cases hev : evaluate_model yte (fitPredict fam param Xtr ytr Xte) with
  | none => rw [hev] at hb; exact absurd hb (by simp)
  | some em =>
    rw [hev] at hb
    simp only [Option.map_some', Option.some.injEq] at hb
    have h1 := congrArg Prod.fst hb
    have h2 := congrArg Prod.snd hb
    simp only at h1 h2
    rw [← h1, ← h2]
    exact ⟨dictInsert_fst _ _ _, rfl⟩

/-- Auxiliary: over any successful run, the grid-search fold writes exactly
the keys of the visited combinations, dict-inserted in iteration order. -/
theorem grid_fold_keys (fitPredict : FitPredict) (clock : Nat → ℚ) (Xtr : Mat)
    (ytr : List ℚ) (Xte : Mat) (yte : List ℚ) :
    ∀ (combos : List (String × Params)) (d : List (String × PerfRecord)) (t : Nat)
      (res : List (String × PerfRecord) × Nat),
      combos.foldl (fun acc mp => acc.bind
        (fun dt => build_classifier fitPredict clock Xtr ytr Xte yte mp.1 mp.2 dt))
        (some (d, t)) = some res →
      res.1.map Prod.fst =
        (combos.map (fun mp => strModel mp.1 mp.2)).foldl keyInsert (d.map Prod.fst) := by
  intro combos
  induction combos with
  | nil =>
    intro d t res hres
    simp only [List.foldl_nil, Option.some.injEq] at hres
    rw [← hres]
    simp
  | cons mp combos ih =>
    intro d t res hres
    simp only [List.foldl_cons, Option.some_bind] at hres
    cases hb : build_classifier fitPredict clock Xtr ytr Xte yte mp.1 mp.2 (d, t) with
    | none =>
      rw [hb] at hres
      rw [foldl_bind_none] at hres
      exact absurd hres (by simp)
    | some dt2 =>
      rw [hb] at hres
      have hk := build_classifier_some fitPredict clock Xtr ytr Xte yte mp.1 mp.2 d t
        dt2.1 dt2.2 hb
      have hres2 := ih dt2.1 dt2.2 res hres
      rw [hres2, hk.1, List.map_cons, List.foldl_cons]

/-- Auxiliary: folding fresh pairwise-distinct keys into a key list appends
them. -/
theorem keyInsert_foldl : ∀ (l acc : List String), l.Nodup → (∀ k ∈ l, k ∉ acc) →
    l.foldl keyInsert acc = acc ++ l := by
  intro l
  induction l with
  | nil => intro acc _ _; simp
  | cons a l ih =>
    intro acc hnd hdisj
    simp only [List.foldl_cons]
    have ha : keyInsert acc a = acc ++ [a] := by
      unfold keyInsert
      rw [if_neg (hdisj a (by simp))]
    have hnd' := List.nodup_cons.mp hnd
    rw [ha, ih (acc ++ [a]) hnd'.2 ?_]
    · simp
    · intro k hk
      simp only [List.mem_append, List.mem_singleton]
      rintro (hka | hka)
      · exact hdisj k (by simp [hk]) hka
      · exact hnd'.1 (hka ▸ hk)

/-- C3: for every train/test split and degree, whenever the Grid Search Runner
returns, its rows are keyed exactly by the rendering of each (model family ×
hyperparameter) combination of the registry and grid, one row per combination
in iteration order with no key repeated, and renderings of distinct
hyperparameter combinations of the same family always differ, so no
combination's record is overwritten by another's. -/
theorem C3_grid_search_rows :
    (∀ (fitPredict : FitPredict) (clock : Nat → ℚ) (X_train : Mat) (y_train : List ℚ)
       (X_test : Mat) (y_test : List ℚ) (test_week degree t : Nat),
      ((run_grid_search fitPredict clock X_train y_train X_test y_test test_week degree
          MODELS GRID t).map (fun rt => rt.1.map (fun row => row.key))).getD gridKeys =
        gridKeys) ∧
    gridKeys.Nodup ∧
    (∀ m ∈ MODELS, ∀ p ∈ GRID m, ∀ q ∈ GRID m, p ≠ q → strModel m p ≠ strModel m q) := by
  have hnd : gridKeys.Nodup := by decide
  refine ⟨?_, hnd, ?_⟩
  · intro fp c Xtr ytr Xte yte tw deg t
    cases hr : run_grid_search fp c Xtr ytr Xte yte tw deg MODELS GRID t with
    | none => rfl
    | some rt =>
      unfold run_grid_search at hr
      cases hf : (comboList MODELS GRID).foldl
          (fun acc mp => acc.bind
            (fun dt => build_classifier fp c Xtr ytr Xte yte mp.1 mp.2 dt))
          (some ([], t)) with
      | none => rw [hf] at hr; exact absurd hr (by simp)
      | some dt =>
        rw [hf] at hr
        simp only [Option.map_some', Option.some.injEq] at hr
        have hk := grid_fold_keys fp c Xtr ytr Xte yte (comboList MODELS GRID) [] t dt hf
        have hins : ((comboList MODELS GRID).map (fun mp => strModel mp.1 mp.2)).foldl
            keyInsert (([] : List (String × PerfRecord)).map Prod.fst) = gridKeys := by
          rw [show ((comboList MODELS GRID).map (fun mp => strModel mp.1 mp.2)) = gridKeys
                from rfl]
          rw [show (([] : List (String × PerfRecord)).map Prod.fst) = [] from rfl]
          rw [keyInsert_foldl gridKeys [] hnd (by simp)]
          rfl
        rw [← hr]
        simp only [Option.map_some', Option.getD_some, List.map_map]
        rw [show ((fun row : GridRow => row.key) ∘
              fun kr : String × PerfRecord =>
                GridRow.mk kr.1 kr.2 tw deg) = Prod.fst from rfl]
        rw [hk, hins]
  · intro m hm p hp q hq hpq heq
    have hmap : ((GRID m).map (strModel m)).Nodup := by
      fin_cases hm <;> decide
    exact hpq (List.inj_on_of_nodup_map hmap hp hq heq)

/-- Witness for C3: keys computed for a concrete run, and key distinctness of
two concrete Lasso hyperparameter combinations. -/
theorem C3_witness :
    ((run_grid_search c3fit c3clock [[1]] [5] [[1]] [5] 3 1 MODELS GRID 0).map
        (fun rt => rt.1.map (fun row => row.key))).getD gridKeys = gridKeys ∧
    strModel "Lasso" [("alpha", PVal.n (mkRat 1 1000)), ("random_state", PVal.n 0)] ≠
      strModel "Lasso" [("alpha", PVal.n (mkRat 1 100)), ("random_state", PVal.n 0)] :=
  ⟨C3_grid_search_rows.1 c3fit c3clock [[1]] [5] [[1]] [5] 3 1 0,
   C3_grid_search_rows.2.2 "Lasso" (by decide)
     [("alpha", PVal.n (mkRat 1 1000)), ("random_state", PVal.n 0)] (by decide)
     [("alpha", PVal.n (mkRat 1 100)), ("random_state", PVal.n 0)] (by decide)
     (by decide)⟩

/-- Auxiliary: `dictInsert` commutes with erasing run times. -/
theorem stripDict_dictInsert (k : String) (v : PerfRecord) (d : List (String × PerfRecord)) :
    stripDict (dictInsert k v d) = dictInsert k (stripRec v) (stripDict d) := by
  unfold stripDict dictInsert
  have hany : ((d.map (fun e => (e.1, stripRec e.2))).any (fun e => e.1 == k)) =
      (d.any (fun e => e.1 == k)) := by
    rw [List.any_map]
    rfl
  rw [hany]
  by_cases hc : d.any (fun e => e.1 == k) = true
  · rw [if_pos hc, if_pos hc, List.map_map, List.map_map]
    apply List.map_congr_left
    intro e _
    by_cases hek : e.1 = k
    · simp [hek]
    · simp [hek]
  · rw [if_neg hc, if_neg hc]
    simp

/-- Auxiliary: two `build_classifier` calls differing only in the clock, the
tick counter and run-time-stripped-equal dictionaries produce
run-time-stripped-equal results. -/
theorem build_classifier_strip (fp : FitPredict) (c1 c2 : Nat → ℚ) (Xtr : Mat)
    (ytr : List ℚ) (Xte : Mat) (yte : List ℚ) (fam : String) (param : Params)
    (d1 d2 : List (String × PerfRecord)) (t1 t2 : Nat)
    (hd : stripDict d1 = stripDict d2) :
    (build_classifier fp c1 Xtr ytr Xte yte fam param (d1, t1)).map
        (fun dt => stripDict dt.1) =
      (build_classifier fp c2 Xtr ytr Xte yte fam param (d2, t2)).map
        (fun dt => stripDict dt.1) := by
  simp only [build_classifier]
  cases evaluate_model yte (fp fam param Xtr ytr Xte) with
  | none => rfl
  | some em =>
    simp only [Option.map_some', Option.some.injEq]
    rw [stripDict_dictInsert, stripDict_dictInsert, hd]
    rfl

/-- Auxiliary: the combination loop preserves run-time-stripped equality of
the accumulated dictionaries across different clocks and counters. -/
theorem grid_fold_strip (fp : FitPredict) (c1 c2 : Nat → ℚ) (Xtr : Mat)
    (ytr : List ℚ) (Xte : Mat) (yte : List ℚ) :
    ∀ (combos : List (String × Params)) (d1 d2 : List (String × PerfRecord)) (t1 t2 : Nat),
      stripDict d1 = stripDict d2 →
      ((combos.foldl (fun acc mp => acc.bind
          (fun dt => build_classifier fp c1 Xtr ytr Xte yte mp.1 mp.2 dt))
          (some (d1, t1))).map (fun dt => stripDict dt.1)) =
      ((combos.foldl (fun acc mp => acc.bind
          (fun dt => build_classifier fp c2 Xtr ytr Xte yte mp.1 mp.2 dt))
          (some (d2, t2))).map (fun dt => stripDict dt.1)) := by
  intro combos
  induction combos with
  | nil => intro d1 d2 t1 t2 hd; simpa using hd
  | cons mp combos ih =>
    intro d1 d2 t1 t2 hd
    simp only [List.foldl_cons, Option.some_bind]
    have hstep := build_classifier_strip fp c1 c2 Xtr ytr Xte yte mp.1 mp.2 d1 d2 t1 t2 hd
    cases hb1 : build_classifier fp c1 Xtr ytr Xte yte mp.1 mp.2 (d1, t1) with
    | none =>
      cases hb2 : build_classifier fp c2 Xtr ytr Xte yte mp.1 mp.2 (d2, t2) with
      | none => rw [foldl_bind_none, foldl_bind_none]
      | some y =>
        rw [hb1, hb2] at hstep
        exact absurd hstep (by simp)
    | some x =>
      cases hb2 : build_classifier fp c2 Xtr ytr Xte yte mp.1 mp.2 (d2, t2) with
      | none =>
        rw [hb1, hb2] at hstep
        exact absurd hstep (by simp)
      | some y =>
        rw [hb1, hb2] at hstep
        simp only [Option.map_some', Option.some.injEq] at hstep
        exact ih x.1 y.1 x.2 y.2 hstep

/-- Auxiliary: `run_grid_search` produces run-time-stripped-equal row lists
for any two clocks and starting counters. -/
theorem run_grid_search_strip (fp : FitPredict) (c1 c2 : Nat → ℚ) (Xtr : Mat)
    (ytr : List ℚ) (Xte : Mat) (yte : List ℚ) (tw deg : Nat)
    (models : List String) (grid : String → List Params) (t1 t2 : Nat) :
    (run_grid_search fp c1 Xtr ytr Xte yte tw deg models grid t1).map
        (fun rt => rt.1.map stripGrid) =
      (run_grid_search fp c2 Xtr ytr Xte yte tw deg models grid t2).map
        (fun rt => rt.1.map stripGrid) := by
  unfold run_grid_search
  rw [Option.map_map, Option.map_map]
  have hfun : ((fun rt : List GridRow × Nat => rt.1.map stripGrid) ∘
      (fun dt : List (String × PerfRecord) × Nat =>
        (dt.1.map (fun kr => GridRow.mk kr.1 kr.2 tw deg), dt.2))) =
      (fun l : List GridRow => l) ∘ (fun dt : List (String × PerfRecord) × Nat =>
        (stripDict dt.1).map (fun kr => GridRow.mk kr.1 kr.2 tw deg)) := by
    funext dt
    simp only [Function.comp_apply, stripDict, List.map_map]
    rfl
  rw [hfun]
  have h := grid_fold_strip fp c1 c2 Xtr ytr Xte yte (comboList models grid) [] [] t1 t2 rfl
  rw [show ((fun l : List GridRow => l) ∘ (fun dt : List (String × PerfRecord) × Nat =>
        (stripDict dt.1).map (fun kr => GridRow.mk kr.1 kr.2 tw deg))) =
      ((fun l : List (String × PerfRecord) =>
        l.map (fun kr => GridRow.mk kr.1 kr.2 tw deg)) ∘
        (fun dt : List (String × PerfRecord) × Nat => stripDict dt.1)) from rfl]
  rw [← Option.map_map, ← Option.map_map, h]

/-- Auxiliary: the degree loop preserves run-time-stripped equality of the
concatenated grid rows across different clocks and counters. -/
theorem cv_fold_degrees_strip (expandRow : Nat → List ℚ → List ℚ) (fp : FitPredict)
    (c1 c2 : Nat → ℚ) (trainP testP : List Row) (features : List String)
    (target : String) (tw : Nat) (models : List String)
    (grid : String → List Params) :
    ∀ (degrees : List Nat) (e1 e2 : List GridRow) (t1 t2 : Nat),
      e1.map stripGrid = e2.map stripGrid →
      ((cv_fold_degrees expandRow fp c1 trainP testP features target tw degrees models grid
          (e1, t1)).map (fun et => et.1.map stripGrid)) =
      ((cv_fold_degrees expandRow fp c2 trainP testP features target tw degrees models grid
          (e2, t2)).map (fun et => et.1.map stripGrid)) := by
  intro degrees
  induction degrees with
  | nil => intro e1 e2 t1 t2 he; simpa [cv_fold_degrees] using he
  | cons deg degrees ih =>
    intro e1 e2 t1 t2 he
    simp only [cv_fold_degrees, List.foldl_cons, Option.some_bind]
    have hrg := run_grid_search_strip fp c1 c2
      (cv_design expandRow deg (rowsMatrix trainP features) (rowsMatrix testP features)).1
      (rowsCol trainP target)
      (cv_design expandRow deg (rowsMatrix trainP features) (rowsMatrix testP features)).2.1
      (rowsCol testP target) tw deg models grid t1 t2
    cases hb1 : run_grid_search fp c1
        (cv_design expandRow deg (rowsMatrix trainP features) (rowsMatrix testP features)).1
        (rowsCol trainP target)
        (cv_design expandRow deg (rowsMatrix trainP features) (rowsMatrix testP features)).2.1
        (rowsCol testP target) tw deg models grid t1 with
    | none =>
      cases hb2 : run_grid_search fp c2
          (cv_design expandRow deg (rowsMatrix trainP features) (rowsMatrix testP features)).1
          (rowsCol trainP target)
          (cv_design expandRow deg (rowsMatrix trainP features) (rowsMatrix testP features)).2.1
          (rowsCol testP target) tw deg models grid t2 with
      | none =>
        rw [show (Option.map (fun gt : List GridRow × Nat => (e1 ++ gt.1, gt.2)) none
              = (none : Option (List GridRow × Nat))) from rfl]
        rw [show (Option.map (fun gt : List GridRow × Nat => (e2 ++ gt.1, gt.2)) none
              = (none : Option (List GridRow × Nat))) from rfl]
        rw [foldl_bind_none, foldl_bind_none]
      | some y =>
        rw [hb1, hb2] at hrg
        exact absurd hrg (by simp)
    | some x =>
      cases hb2 : run_grid_search fp c2
          (cv_design expandRow deg (rowsMatrix trainP features) (rowsMatrix testP features)).1
          (rowsCol trainP target)
          (cv_design expandRow deg (rowsMatrix trainP features) (rowsMatrix testP features)).2.1
          (rowsCol testP target) tw deg models grid t2 with
      | none =>
        rw [hb1, hb2] at hrg
        exact absurd hrg (by simp)
      | some y =>
        rw [hb1, hb2] at hrg
        simp only [Option.map_some', Option.some.injEq] at hrg
        have happ : (e1 ++ x.1).map stripGrid = (e2 ++ y.1).map stripGrid := by
          rw [List.map_append, List.map_append, he, hrg]
        have := ih (e1 ++ x.1) (e2 ++ y.1) x.2 y.2 happ
        simpa [cv_fold_degrees] using this

/-- Auxiliary: the fold loop of `cross_validate` preserves run-time-stripped
equality across different clocks. -/
theorem cv_splits_strip {σ : Type} (normFit : List Row → List Row × σ)
    (normApply : List Row → σ → List Row) (expandRow : Nat → List ℚ → List ℚ)
    (fp : FitPredict) (c1 c2 : Nat → ℚ) (features : List String) (target : String)
    (degrees : List Nat) (models : List String) (grid : String → List Params) :
    ∀ (temporal_splits : List Fold) (e1 e2 : List GridRow) (t1 t2 : Nat),
      e1.map stripGrid = e2.map stripGrid →
      ((temporal_splits.foldl (fun acc cv =>
          acc.bind (fun et =>
            cv_fold_degrees expandRow fp c1 (foldPrep normFit normApply cv.train cv.test).1
              (foldPrep normFit normApply cv.train cv.test).2 features target
              cv.test_week degrees models grid et))
          (some (e1, t1))).map (fun et => et.1.map stripGrid)) =
      ((temporal_splits.foldl (fun acc cv =>
          acc.bind (fun et =>
            cv_fold_degrees expandRow fp c2 (foldPrep normFit normApply cv.train cv.test).1
              (foldPrep normFit normApply cv.train cv.test).2 features target
              cv.test_week degrees models grid et))
          (some (e2, t2))).map (fun et => et.1.map stripGrid)) := by
  intro temporal_splits
  induction temporal_splits with
  | nil => intro e1 e2 t1 t2 he; simpa using he
  | cons cv splits ih =>
    intro e1 e2 t1 t2 he
    simp only [List.foldl_cons, Option.some_bind]
    have hfd := cv_fold_degrees_strip expandRow fp c1 c2
      (foldPrep normFit normApply cv.train cv.test).1
      (foldPrep normFit normApply cv.train cv.test).2 features target cv.test_week
      models grid degrees e1 e2 t1 t2 he
    cases hb1 : cv_fold_degrees expandRow fp c1 (foldPrep normFit normApply cv.train cv.test).1
        (foldPrep normFit normApply cv.train cv.test).2 features target cv.test_week
        degrees models grid (e1, t1) with
    | none =>
      cases hb2 : cv_fold_degrees expandRow fp c2 (foldPrep normFit normApply cv.train cv.test).1
          (foldPrep normFit normApply cv.train cv.test).2 features target cv.test_week
          degrees models grid (e2, t2) with
      | none => rw [foldl_bind_none, foldl_bind_none]
      | some y =>
        rw [hb1, hb2] at hfd
        exact absurd hfd (by simp)
    | some x =>
      cases hb2 : cv_fold_degrees expandRow fp c2 (foldPrep normFit normApply cv.train cv.test).1
          (foldPrep normFit normApply cv.train cv.test).2 features target cv.test_week
          degrees models grid (e2, t2) with
      | none =>
        rw [hb1, hb2] at hfd
        exact absurd hfd (by simp)
      | some y =>
        rw [hb1, hb2] at hfd
        simp only [Option.map_some', Option.some.injEq] at hfd
        exact ih x.1 y.1 x.2 y.2 hfd

/-- C7: on fixed inputs (fold sequence, features, target, degrees, model
registry and grid) with the model families modelled as a deterministic
fit/predict function, two runs of the Cross-Validation Orchestrator under any
two clocks produce identical evaluation tables — equal metric values, labels
and row order — once the run_time column is erased. -/
theorem C7_determinism {σ : Type} (normFit : List Row → List Row × σ)
    (normApply : List Row → σ → List Row) (expandRow : Nat → List ℚ → List ℚ)
    (fitPredict : FitPredict) (clock1 clock2 : Nat → ℚ)
    (temporal_splits : List Fold) (features : List String) (target : String)
    (degrees : List Nat) (models : List String) (grid : String → List Params) :
    (cross_validate normFit normApply expandRow fitPredict clock1 temporal_splits
        features target degrees models grid).map (List.map stripTime) =
      (cross_validate normFit normApply expandRow fitPredict clock2 temporal_splits
        features target degrees models grid).map (List.map stripTime) := by
  unfold cross_validate
  have htop := cv_splits_strip normFit normApply expandRow fitPredict clock1 clock2
    features target degrees models grid temporal_splits [] [] 0 0 rfl
  cases hb1 : temporal_splits.foldl (fun acc cv =>
      acc.bind (fun et =>
        cv_fold_degrees expandRow fitPredict clock1 (foldPrep normFit normApply cv.train cv.test).1
          (foldPrep normFit normApply cv.train cv.test).2 features target
          cv.test_week degrees models grid et))
      (some ([], 0)) with
  | none =>
    cases hb2 : temporal_splits.foldl (fun acc cv =>
        acc.bind (fun et =>
          cv_fold_degrees expandRow fitPredict clock2 (foldPrep normFit normApply cv.train cv.test).1
            (foldPrep normFit normApply cv.train cv.test).2 features target
            cv.test_week degrees models grid et))
        (some ([], 0)) with
    | none => rfl
    | some y =>
      rw [hb1, hb2] at htop
      exact absurd htop (by simp)
  | some x =>
    cases hb2 : temporal_splits.foldl (fun acc cv =>
        acc.bind (fun et =>
          cv_fold_degrees expandRow fitPredict clock2 (foldPrep normFit normApply cv.train cv.test).1
            (foldPrep normFit normApply cv.train cv.test).2 features target
            cv.test_week degrees models grid et))
        (some ([], 0)) with
    | none =>
      rw [hb1, hb2] at htop
      exact absurd htop (by simp)
    | some y =>
      rw [hb1, hb2] at htop
      simp only [Option.map_some', Option.some.injEq] at htop
      simp only [Option.some_bind]
      by_cases hemp : (temporal_splits.isEmpty || degrees.isEmpty) = true
      · rw [if_pos hemp, if_pos hemp]
      · rw [if_neg hemp, if_neg hemp]
        simp only [Option.map_some', Option.some.injEq, List.map_map]
        rw [show (stripTime ∘ relabelRow) = (relabelRow ∘ stripGrid) from rfl]
        rw [← List.map_map, ← List.map_map, htop]

/-- Auxiliary: insertion produces a permutation of consing. -/
theorem insertLe_perm (le : α → α → Bool) (a : α) :
    ∀ l : List α, List.Perm (insertLe le a l) (a :: l) := by
  intro l
  induction l with
  | nil => exact List.Perm.refl _
  | cons b t ih =>
    unfold insertLe
    by_cases hle : le a b = true
    · rw [if_pos hle]
    · rw [if_neg hle]
      exact List.Perm.trans (List.Perm.cons b ih) (List.Perm.swap a b t)

/-- Auxiliary: the insertion sort permutes its input. -/
theorem sortLe_perm (le : α → α → Bool) : ∀ l : List α, List.Perm (sortLe le l) l := by
  intro l
  induction l with
  | nil => exact List.Perm.refl _
  | cons a t ih =>
    unfold sortLe at *
    exact List.Perm.trans (insertLe_perm le a _) (List.Perm.cons a ih)

/-- Auxiliary: a sorted empty result forces an empty input. -/
theorem sortLe_eq_nil {le : α → α → Bool} {l : List α} (h : sortLe le l = []) : l = [] := by
  have hp := sortLe_perm le l
  rw [h] at hp
  exact (hp.symm).eq_nil

/-- Auxiliary: codepoint comparison is reflexive. -/
theorem strLeChars_refl : ∀ l : List Char, strLeChars l l = true := by
  intro l
  induction l with
  | nil => rfl
  | cons a t ih =>
    unfold strLeChars
    simp [ih]

/-- Auxiliary: codepoint comparison is total. -/
theorem strLeChars_total : ∀ a b : List Char, strLeChars a b = true ∨ strLeChars b a = true := by
  intro a
  induction a with
  | nil => intro b; left; rfl
  | cons x xs ih =>
    intro b
    cases b with
    | nil => right; rfl
    | cons y ys =>
      unfold strLeChars
      rcases Nat.lt_trichotomy x.toNat y.toNat with hlt | heq | hgt
      · left; rw [if_pos hlt]
      · rw [if_neg (by omega), if_neg (by omega), if_neg (by omega), if_neg (by omega)]
        exact ih ys
      · right; rw [if_pos hgt]

/-- Auxiliary: codepoint comparison is transitive. -/
theorem strLeChars_trans : ∀ a b c : List Char, strLeChars a b = true →
    strLeChars b c = true → strLeChars a c = true := by
  intro a
  induction a with
  | nil => intro b c _ _; rfl
  | cons x xs ih =>
    intro b c hab hbc
    cases b with
    | nil => exact absurd hab (by simp [strLeChars])
    | cons y ys =>
      cases c with
      | nil => exact absurd hbc (by simp [strLeChars])
      | cons z zs =>
        unfold strLeChars at hab hbc ⊢
        by_cases hxy : x.toNat < y.toNat
        · rw [if_pos hxy] at hab
          by_cases hyz : y.toNat < z.toNat
          · rw [if_pos (by omega)]
          · rw [if_neg hyz] at hbc
            by_cases hzy : z.toNat < y.toNat
            · rw [if_pos hzy] at hbc
              exact absurd hbc (by simp)
            · rw [if_pos (by omega)]
        · rw [if_neg hxy] at hab
          by_cases hyx : y.toNat < x.toNat
          · rw [if_pos hyx] at hab
            exact absurd hab (by simp)
          · rw [if_neg hyx] at hab
            by_cases hyz : y.toNat < z.toNat
            · rw [if_pos (by omega)]
            · rw [if_neg hyz] at hbc
              by_cases hzy : z.toNat < y.toNat
              · rw [if_pos hzy] at hbc
                exact absurd hbc (by simp)
              · rw [if_neg hzy] at hbc
                rw [if_neg (by omega), if_neg (by omega)]
                exact ih ys zs hab hbc

/-- Auxiliary: string comparison is reflexive. -/
theorem strLe_refl (s : String) : strLe s s = true := strLeChars_refl _

/-- Auxiliary: string comparison is total. -/
theorem strLe_total (a b : String) : strLe a b = true ∨ strLe b a = true :=
  strLeChars_total _ _

/-- Auxiliary: string comparison is transitive. -/
theorem strLe_trans {a b c : String} (h1 : strLe a b = true) (h2 : strLe b c = true) :
    strLe a c = true := strLeChars_trans _ _ _ h1 h2

/-- Auxiliary: insertion preserves sortedness for a total transitive
comparison. -/
theorem insertLe_pairwise (le : α → α → Bool)
    (htot : ∀ a b, le a b = true ∨ le b a = true)
    (htr : ∀ a b c, le a b = true → le b c = true → le a c = true) (a : α) :
    ∀ l : List α, List.Pairwise (fun x y => le x y = true) l →
      List.Pairwise (fun x y => le x y = true) (insertLe le a l) := by
  intro l
  induction l with
  | nil => intro _; exact List.pairwise_singleton _ a
  | cons b t ih =>
    intro hp
    have hp2 := List.pairwise_cons.mp hp
    unfold insertLe
    by_cases hle : le a b = true
    · rw [if_pos hle]
      refine List.pairwise_cons.mpr ⟨?_, hp⟩
      intro x hx
      rcases List.mem_cons.mp hx with h1 | h1
      · rw [h1]; exact hle
      · exact htr a b x hle (hp2.1 x h1)
    · rw [if_neg hle]
      refine List.pairwise_cons.mpr ⟨?_, ih hp2.2⟩
      intro x hx
      have hx2 := (insertLe_perm le a t).mem_iff.mp hx
      rcases List.mem_cons.mp hx2 with h1 | h1
      · rw [h1]
        rcases htot a b with h2 | h2
        · exact absurd h2 hle
        · exact h2
      · exact hp2.1 x h1

/-- Auxiliary: the insertion sort sorts, for a total transitive comparison. -/
theorem sortLe_pairwise (le : α → α → Bool)
    (htot : ∀ a b, le a b = true ∨ le b a = true)
    (htr : ∀ a b c, le a b = true → le b c = true → le a c = true) :
    ∀ l : List α, List.Pairwise (fun x y => le x y = true) (sortLe le l) := by
  intro l
  induction l with
  | nil => exact List.Pairwise.nil
  | cons a t ih => exact insertLe_pairwise le htot htr a _ ih

/-- Auxiliary: `find?` returns the unique matching element regardless of
order. -/
theorem find?_eq_of_unique (p : α → Bool) : ∀ (l : List α) (a : α), a ∈ l → p a = true →
    (∀ b ∈ l, p b = true → b = a) → l.find? p = some a := by
  intro l
  induction l with
  | nil => intro a ha _ _; exact absurd ha (by simp)
  | cons x t ih =>
    intro a ha hpa huniq
    by_cases hx : p x = true
    · rw [List.find?_cons_of_pos _ hx]
      rw [huniq x (by simp) hx]
    · rw [List.find?_cons_of_neg _ hx]
      have hat : a ∈ t := by
        rcases List.mem_cons.mp ha with h1 | h1
        · rw [h1] at hpa; exact absurd hpa hx
        · exact h1
      exact ih a hat hpa (fun b hb hpb => huniq b (by simp [hb]) hpb)

/-- Auxiliary: on the index-decorated count table, selecting index label zero
after any count sort recovers the head of the pre-sort table. -/
theorem find_enum_zero (le2 : Nat × String × Nat → Nat × String × Nat → Bool)
    (c0 : String × Nat) (cs : List (String × Nat)) :
    (sortLe le2 ((c0 :: cs).enum)).find? (fun e => e.1 == 0) = some (0, c0) := by
  apply find?_eq_of_unique
  · refine (sortLe_perm le2 _).mem_iff.mpr ?_
    rw [List.enum_cons]
    exact List.mem_cons_self _ _
  · rfl
  · intro b hb hpb
    obtain ⟨i, v⟩ := b
    have hb1 : i = 0 := by simpa using hpb
    subst hb1
    have hbm : ((0, v) : Nat × String × Nat) ∈ (c0 :: cs).enum :=
      (sortLe_perm le2 _).mem_iff.mp hb
    have hget := List.mem_enum hbm
    have hv : v = c0 := by simpa using hget.2
    rw [hv]

/-- Auxiliary: the per-label mean table of a non-empty evaluation table is
non-empty. -/
theorem by_model_means_ne (t : List EvalRow) (h : t ≠ []) : by_model_means t ≠ [] := by
  unfold by_model_means groupLabels
  intro hc
  rw [List.map_eq_nil_iff] at hc
  have hd := sortLe_eq_nil hc
  rw [List.dedup_eq_nil, List.map_eq_nil_iff] at hd
  exact h hd

/-- Auxiliary: each metric's minimising row set of a non-empty mean table is
non-empty. -/
theorem bestRowsFor_ne (metric : MeanRow → ℚ) (bm : List MeanRow) (h : bm ≠ []) :
    bestRowsFor metric bm ≠ [] := by
  unfold bestRowsFor
  cases hmin : (bm.map metric).min? with
  | none =>
    rw [List.min?_eq_none_iff, List.map_eq_nil_iff] at hmin
    exact absurd hmin h
  | some m =>
    have hmem : m ∈ bm.map metric :=
      List.min?_mem (fun a b => min_choice a b) hmin
    rcases List.mem_map.mp hmem with ⟨r, hr, hrm⟩
    intro hc
    have hin : r ∈ bm.filter (fun r2 => metric r2 == m) :=
      List.mem_filter.mpr ⟨hr, by simp [hrm]⟩
    have hc2 : bm.filter (fun r2 => metric r2 == m) = [] := hc
    rw [hc2] at hin
    exact absurd hin (by simp)

/-- Auxiliary: the pooled best rows of a non-empty evaluation table are
non-empty. -/
theorem find_best_model_ne (t : List EvalRow) (h : t ≠ []) : find_best_model t ≠ [] := by
  unfold find_best_model
  intro hc
  rcases List.append_eq_nil.mp hc with ⟨hc1, _⟩
  rcases List.append_eq_nil.mp hc1 with ⟨hc2, _⟩
  exact bestRowsFor_ne (fun r => r.mse) (by_model_means t) (by_model_means_ne t h) hc2

/-- C1 amended: on every non-empty evaluation table the selection block pools
the labels minimising the mean mse, mae and rss, tallies occurrences per
exact label, and — because the row at positional index label zero is read
after the index is attached and before any effect of the count sort — selects
the lexicographically smallest pooled label regardless of the tally; the
representative Winning Configuration is the first row of the evaluation table
carrying that exact label, with the model family read as the label's leading
word. -/
theorem C1_amended_selection (t : List EvalRow) (h : t ≠ []) :
    ∃ lbl, best_single t = some lbl ∧ lbl ∈ poolLabels t ∧
      (∀ l2 ∈ poolLabels t, strLe lbl l2 = true) ∧
      select_best t = ((t.filter (fun r => r.model == lbl)).head?).map (fun row =>
        { degree := row.degree, params := row.parameters, model_type := firstWord lbl }) := by
  have hpool := find_best_model_ne t h
  have hkne : sortLe strLe (((find_best_model t).map (fun r => r.model)).dedup) ≠ [] := by
    intro hc
    have hd := sortLe_eq_nil hc
    rw [List.dedup_eq_nil, List.map_eq_nil_iff] at hd
    exact hpool hd
  obtain ⟨k0, krest, hk⟩ := List.exists_cons_of_ne_nil hkne
  have hk0mem : k0 ∈ poolLabels t := by
    have : k0 ∈ sortLe strLe (((find_best_model t).map (fun r => r.model)).dedup) := by
      rw [hk]; exact List.mem_cons_self _ _
    have h2 := (sortLe_perm strLe _).mem_iff.mp this
    rw [List.mem_dedup] at h2
    exact h2
  have hbs : best_single t = some k0 := by
    simp only [best_single]
    rw [hk, List.map_cons, find_enum_zero]
    rfl
  refine ⟨k0, hbs, hk0mem, ?_, ?_⟩
  · intro l2 hl2
    have hl2s : l2 ∈ sortLe strLe (((find_best_model t).map (fun r => r.model)).dedup) := by
      refine (sortLe_perm strLe _).mem_iff.mpr ?_
      rw [List.mem_dedup]
      exact hl2
    have hsorted := sortLe_pairwise strLe strLe_total (fun a b c => strLe_trans)
      (((find_best_model t).map (fun r => r.model)).dedup)
    rw [hk] at hl2s hsorted
    rcases List.mem_cons.mp hl2s with h1 | h1
    · rw [h1]; exact strLe_refl k0
    · exact (List.pairwise_cons.mp hsorted).1 l2 h1
  · simp only [select_best]
    rw [hbs]
    rfl

/-- Witness for C1's amended statement at the concrete table. -/
theorem C1_amended_witness :
    T1 ≠ [] ∧
    ∃ lbl, best_single T1 = some lbl ∧ lbl ∈ poolLabels T1 ∧
      (∀ l2 ∈ poolLabels T1, strLe lbl l2 = true) ∧
      select_best T1 = ((T1.filter (fun r => r.model == lbl)).head?).map (fun row =>
        { degree := row.degree, params := row.parameters, model_type := firstWord lbl }) :=
  ⟨by simp [T1], C1_amended_selection T1 (by simp [T1])⟩

/-- Counterexample for C1: on the concrete table `T1` the pooled best labels
tally one occurrence for the Lasso family and two for the Ridge family, yet
the selection block returns the Lasso configuration — the family with the
highest occurrence count is not the one chosen, refuting the claimed
selection rule. -/
theorem C1_counterexample :
    (select_best T1).map (fun b => b.model_type) = some "Lasso" ∧
    familyTally (find_best_model T1) "Lasso" = 1 ∧
    familyTally (find_best_model T1) "Ridge" = 2 := by
  have hgl : groupLabels T1 =
      ["Lasso degree_1 pc", "Ridge degree_1 pa", "Ridge degree_2 pb"] := by rfl
  have hmA : labelMean T1 "Lasso degree_1 pc" =
      { model := "Lasso degree_1 pc", mse := 3, mae := 3, rss := 1 } := by
    unfold labelMean
    rw [show T1.filter (fun r => r.model == "Lasso degree_1 pc") =
          [mkEvalRow "Lasso degree_1 pc" 3 3 1 1] from rfl]
    norm_num [mkEvalRow]
  have hmB : labelMean T1 "Ridge degree_1 pa" =
      { model := "Ridge degree_1 pa", mse := 1, mae := 2, rss := 2 } := by
    unfold labelMean
    rw [show T1.filter (fun r => r.model == "Ridge degree_1 pa") =
          [mkEvalRow "Ridge degree_1 pa" 1 2 2 1] from rfl]
    norm_num [mkEvalRow]
  have hmC : labelMean T1 "Ridge degree_2 pb" =
      { model := "Ridge degree_2 pb", mse := 2, mae := 1, rss := 3 } := by
    unfold labelMean
    rw [show T1.filter (fun r => r.model == "Ridge degree_2 pb") =
          [mkEvalRow "Ridge degree_2 pb" 2 1 3 2] from rfl]
    norm_num [mkEvalRow]
  have hbm : by_model_means T1 =
      [{ model := "Lasso degree_1 pc", mse := 3, mae := 3, rss := 1 },
       { model := "Ridge degree_1 pa", mse := 1, mae := 2, rss := 2 },
       { model := "Ridge degree_2 pb", mse := 2, mae := 1, rss := 3 }] := by
    unfold by_model_means
    rw [hgl, List.map_cons, List.map_cons, List.map_cons, List.map_nil, hmA, hmB, hmC]
  have hbest1 : bestRowsFor (fun r => r.mse)
      [{ model := "Lasso degree_1 pc", mse := 3, mae := 3, rss := 1 },
       { model := "Ridge degree_1 pa", mse := 1, mae := 2, rss := 2 },
       { model := "Ridge degree_2 pb", mse := 2, mae := 1, rss := 3 }] =
      [{ model := "Ridge degree_1 pa", mse := 1, mae := 2, rss := 2 }] := by
    unfold bestRowsFor
    rw [show (List.map (fun r => r.mse)
          [({ model := "Lasso degree_1 pc", mse := 3, mae := 3, rss := 1 } : MeanRow),
           { model := "Ridge degree_1 pa", mse := 1, mae := 2, rss := 2 },
           { model := "Ridge degree_2 pb", mse := 2, mae := 1, rss := 3 }]) =
        [(3 : ℚ), 1, 2] from rfl]
    rw [show (([3, 1, 2] : List ℚ).min?) = some (List.foldl min 3 [1, 2]) from rfl]
    rw [show List.foldl min (3 : ℚ) [1, 2] = min (min 3 1) 2 from rfl]
    rw [show min (min (3 : ℚ) 1) 2 = 1 from by norm_num [min_def]]
    show List.filter (fun r : MeanRow => r.mse == (1 : ℚ)) _ = _
    norm_num [List.filter_cons, beq_iff_eq]
  have hbest2 : bestRowsFor (fun r => r.mae)
      [{ model := "Lasso degree_1 pc", mse := 3, mae := 3, rss := 1 },
       { model := "Ridge degree_1 pa", mse := 1, mae := 2, rss := 2 },
       { model := "Ridge degree_2 pb", mse := 2, mae := 1, rss := 3 }] =
      [{ model := "Ridge degree_2 pb", mse := 2, mae := 1, rss := 3 }] := by
    unfold bestRowsFor
    rw [show (List.map (fun r => r.mae)
          [({ model := "Lasso degree_1 pc", mse := 3, mae := 3, rss := 1 } : MeanRow),
           { model := "Ridge degree_1 pa", mse := 1, mae := 2, rss := 2 },
           { model := "Ridge degree_2 pb", mse := 2, mae := 1, rss := 3 }]) =
        [(3 : ℚ), 2, 1] from rfl]
    rw [show (([3, 2, 1] : List ℚ).min?) = some (List.foldl min 3 [2, 1]) from rfl]
    rw [show List.foldl min (3 : ℚ) [2, 1] = min (min 3 2) 1 from rfl]
    rw [show min (min (3 : ℚ) 2) 1 = 1 from by norm_num [min_def]]
    show List.filter (fun r : MeanRow => r.mae == (1 : ℚ)) _ = _
    norm_num [List.filter_cons, beq_iff_eq]
  have hbest3 : bestRowsFor (fun r => r.rss)
      [{ model := "Lasso degree_1 pc", mse := 3, mae := 3, rss := 1 },
       { model := "Ridge degree_1 pa", mse := 1, mae := 2, rss := 2 },
       { model := "Ridge degree_2 pb", mse := 2, mae := 1, rss := 3 }] =
      [{ model := "Lasso degree_1 pc", mse := 3, mae := 3, rss := 1 }] := by
    unfold bestRowsFor
    rw [show (List.map (fun r => r.rss)
          [({ model := "Lasso degree_1 pc", mse := 3, mae := 3, rss := 1 } : MeanRow),
           { model := "Ridge degree_1 pa", mse := 1, mae := 2, rss := 2 },
           { model := "Ridge degree_2 pb", mse := 2, mae := 1, rss := 3 }]) =
        [(1 : ℚ), 2, 3] from rfl]
    rw [show (([1, 2, 3] : List ℚ).min?) = some (List.foldl min 1 [2, 3]) from rfl]
    rw [show List.foldl min (1 : ℚ) [2, 3] = min (min 1 2) 3 from rfl]
    rw [show min (min (1 : ℚ) 2) 3 = 1 from by norm_num [min_def]]
    show List.filter (fun r : MeanRow => r.rss == (1 : ℚ)) _ = _
    norm_num [List.filter_cons, beq_iff_eq]
  have hfbm : find_best_model T1 =
      [{ model := "Ridge degree_1 pa", mse := 1, mae := 2, rss := 2 },
       { model := "Ridge degree_2 pb", mse := 2, mae := 1, rss := 3 },
       { model := "Lasso degree_1 pc", mse := 3, mae := 3, rss := 1 }] := by
    simp only [find_best_model]
    rw [hbm, hbest1, hbest2, hbest3]
    rfl
  have hbs : best_single T1 = some "Lasso degree_1 pc" := by
    simp only [best_single]
    rw [hfbm]
    rfl
  have hsel : select_best T1 =
      some { degree := 1, params := [], model_type := "Lasso" } := by
    simp only [select_best]
    rw [hbs]
    rfl
  refine ⟨by rw [hsel]; rfl, ?_, ?_⟩
  · unfold familyTally
    rw [hfbm]
    rfl
  · unfold familyTally
    rw [hfbm]
    rfl
